import Mathlib

/-!
Verification of the portfolio-tracker backend (backend/index.js).

The backend is modelled by a shallow embedding:

* JavaScript numbers that flow through the price resolver are modelled by
  `JsNum`, which distinguishes `NaN`, signed infinities and finite values;
  finite values are exact rationals (the idealisation of IEEE doubles used
  throughout this development).  Trade quantities and prices in the SQL
  aggregation layer are modelled directly as rationals.
* The process-wide mutable cache `priceCache` becomes an explicit
  association-list state threaded through `fetchCurrentPrice`.
* The outside world that `fetchCurrentPrice` consults — the
  `ALPHA_VANTAGE_KEY` environment variable and the result of the HTTP
  fetch — is passed in as data (`Option String` and `FetchOutcome`).
  `FetchOutcome.err` covers a rejected fetch or malformed JSON body;
  `FetchOutcome.ok ps` covers a decoded body whose
  `data["Global Quote"]["05. price"]` field is `ps` (`none` when either
  level is missing, matching `(data["Global Quote"] || {})["05. price"] ?? null`).
* The embedded function returns, besides its value and the updated cache,
  a flag recording whether an external fetch was issued, so that the
  call-frequency contracts can be stated.
* JavaScript exceptions never escape `fetchCurrentPrice` (the `catch`
  swallows them), so the embedding is a total function.
-/

/-- A JavaScript number as produced by `parseFloat`: `NaN`, `±Infinity`,
or a finite value (modelled as an exact rational). -/
inductive JsNum where
  | nan : JsNum
  | inf (neg : Bool) : JsNum
  | fin (q : ℚ) : JsNum
deriving DecidableEq, Repr

/-- Characters skipped by `parseFloat` before parsing: ASCII whitespace,
line terminators, NBSP and the BOM. -/
def jsWhitespace (c : Char) : Bool :=
  decide (c.toNat = 9) || decide (c.toNat = 10) || decide (c.toNat = 11) ||
  decide (c.toNat = 12) || decide (c.toNat = 13) || decide (c.toNat = 32) ||
  decide (c.toNat = 160) || decide (c.toNat = 65279)

/-- ASCII decimal digit test. -/
def isDigitCh (c : Char) : Bool :=
  decide (48 ≤ c.toNat) && decide (c.toNat ≤ 57)

/-- Value of a string of decimal digits, most significant first. -/
def natOfDigits (ds : List Char) : ℕ :=
  ds.foldl (fun n c => 10 * n + (c.toNat - 48)) 0

/-- Split off the longest leading run of decimal digits. -/
def spanDigits (cs : List Char) : List Char × List Char :=
  (cs.takeWhile isDigitCh, cs.dropWhile isDigitCh)

/-- Consume an optional leading sign; returns `(isNegative, rest)`. -/
def parseSignCh : List Char → Bool × List Char
  | '-' :: rest => (true, rest)
  | '+' :: rest => (false, rest)
  | cs => (false, cs)

/-- Value of an optional `ExponentPart` prefix (`e`/`E`, optional sign,
digits); an `e` not followed by digits contributes exponent `0`, exactly as
`parseFloat` then stops before the `e`. -/
def expValue (cs : List Char) : ℤ :=
  match cs with
  | 'e' :: rest | 'E' :: rest =>
    let (eneg, rest') := parseSignCh rest
    let (ds, _) := spanDigits rest'
    if ds.isEmpty then 0
    else if eneg then -(natOfDigits ds : ℤ) else (natOfDigits ds : ℤ)
  | _ => 0

/-- Apply a JS unary minus to a rational. -/
def applySign (neg : Bool) (q : ℚ) : ℚ := if neg then -q else q

/-- Embedding of JavaScript `parseFloat`: skip leading whitespace, then parse
the longest prefix that is a `StrDecimalLiteral` (optional sign, then
`Infinity`, or digits with optional fraction and exponent); `NaN` when no
such prefix exists.  Finite results are exact rationals. -/
def parseFloat (s : String) : JsNum :=
  let cs := s.toList.dropWhile jsWhitespace
  let (neg, cs) := parseSignCh cs
  if cs.take 8 = ['I', 'n', 'f', 'i', 'n', 'i', 't', 'y'] then JsNum.inf neg
  else
    let (ip, r1) := spanDigits cs
    match r1 with
    | '.' :: r2 =>
      let (fp, r3) := spanDigits r2
      if ip.isEmpty && fp.isEmpty then JsNum.nan
      else
        JsNum.fin (applySign neg
          (((natOfDigits ip : ℚ) + (natOfDigits fp : ℚ) / 10 ^ fp.length) *
            10 ^ expValue r3))
    | _ =>
      if ip.isEmpty then JsNum.nan
      else JsNum.fin (applySign neg ((natOfDigits ip : ℚ) * 10 ^ expValue r1))

/-- Embedding of `String(symbol).toUpperCase()` (ASCII case folding, which
covers ticker symbols). -/
def jsToUpper (s : String) : String := ⟨s.data.map Char.toUpper⟩

/-- One slot of `priceCache`: `{ price: number|null, ts: epoch_ms }`. -/
structure CacheEntry where
  price : Option JsNum
  ts : ℤ
deriving DecidableEq, Repr

/-- The in-memory `priceCache` object, as an association list from (already
uppercased) symbol keys to entries. -/
abbrev Cache := List (String × CacheEntry)

/-- Property read `priceCache[key]`. -/
def cacheGet : Cache → String → Option CacheEntry
  | [], _ => none
  | (k, e) :: rest, key => if k = key then some e else cacheGet rest key

/-- Property write `priceCache[key] = entry` (overwrites in place, appends
when the key is new). -/
def cacheSet : Cache → String → CacheEntry → Cache
  | [], key, e => [(key, e)]
  | (k, v) :: rest, key, e =>
    if k = key then (key, e) :: rest else (k, v) :: cacheSet rest key e

/-- `CACHE_TTL_MS = 60_000`. -/
def CACHE_TTL_MS : ℤ := 60000

/-- JS truthiness of `process.env.ALPHA_VANTAGE_KEY` (a string or
undefined): `!apiKey` is true exactly when the variable is unset or empty. -/
def jsTruthyKey : Option String → Bool
  | none => false
  | some s => decide (s ≠ "")

/-- Outcome of the external call in `fetchCurrentPrice`: either the
fetch/JSON-decode throws, or it yields the (optional) string under
`data["Global Quote"]["05. price"]`. -/
inductive FetchOutcome where
  | err : FetchOutcome
  | ok (priceStr : Option String) : FetchOutcome
deriving DecidableEq, Repr

/-- Result of one `fetchCurrentPrice` call: the returned value, the cache
after the call, and whether an external fetch was issued. -/
structure FetchResult where
  ret : Option JsNum
  cache : Cache
  fetched : Bool
deriving DecidableEq, Repr

/-- `const price = priceStr ? parseFloat(priceStr) : null;` — a missing or
empty (falsy) string gives `null`, anything else is fed to `parseFloat`. -/
def jsPriceOf : Option String → Option JsNum
  | none => none
  | some s => if s = "" then none else some (parseFloat s)

/-- The non-fresh path of `fetchCurrentPrice` (lines 33–58): missing API key
stores and returns `null` without fetching; otherwise one fetch is issued
and its outcome (value or swallowed error) is stored and returned. -/
def fetchStalePath (apiKey : Option String) (outcome : FetchOutcome)
    (cache : Cache) (key : String) (now : ℤ) : FetchResult :=
  if jsTruthyKey apiKey = false then
    ⟨none, cacheSet cache key ⟨none, now⟩, false⟩
  else
    match outcome with
    | .err => ⟨none, cacheSet cache key ⟨none, now⟩, true⟩
    | .ok priceStr =>
      let price := jsPriceOf priceStr
      ⟨price, cacheSet cache key ⟨price, now⟩, true⟩

/-- Embedding of `fetchCurrentPrice(symbol)` (lines 25–59).  `now` is the
`Date.now()` read at entry; `apiKey` and `outcome` are the environment
variable and the external world's answer, passed in as data. -/
def fetchCurrentPrice (apiKey : Option String) (outcome : FetchOutcome)
    (cache : Cache) (symbol : String) (now : ℤ) : FetchResult :=
  match cacheGet cache (jsToUpper symbol) with
  | some cached =>
    if now - cached.ts < CACHE_TTL_MS then ⟨cached.price, cache, false⟩
    else fetchStalePath apiKey outcome cache (jsToUpper symbol) now
  | none => fetchStalePath apiKey outcome cache (jsToUpper symbol) now

/-!
The trade ledger and the `GET /api/portfolio` aggregation (lines 100–132).

A `trades` row carries a symbol, a quantity, a price, a type and an
execution timestamp.  The type column is written by `POST /api/trades` from
the `enum{BUY, SELL}` of the data model, so it is embedded as a two-value
inductive; quantities and prices are exact rationals (the idealisation of
the SQL numeric values).  The SQL aggregation is recomputed from scratch on
every request, so it is embedded as pure functions of the row list.
-/

/-- The trade type enum stored in the `type` column. -/
inductive TradeType where
  | BUY : TradeType
  | SELL : TradeType
deriving DecidableEq, Repr

/-- One row of the `trades` table. -/
structure Trade where
  symbol : String
  quantity : ℚ
  price : ℚ
  type : TradeType
  executedAt : ℤ
deriving DecidableEq, Repr

/-- `CASE WHEN type='BUY' THEN quantity ELSE -quantity END`. -/
def signedQty (t : Trade) : ℚ :=
  match t.type with
  | .BUY => t.quantity
  | .SELL => -t.quantity

/-- The group of rows `GROUP BY symbol` collects for symbol `s`. -/
def tradesFor (s : String) (trades : List Trade) : List Trade :=
  trades.filter (fun t => t.symbol = s)

/-- `SUM(CASE WHEN type='BUY' THEN quantity ELSE -quantity END)` for the
group of symbol `s`. -/
def net_qty (s : String) (trades : List Trade) : ℚ :=
  ((tradesFor s trades).map signedQty).sum

/-- `AVG(price)` for the group of symbol `s`: sum of prices over row count,
`NULL` on an empty group (which `GROUP BY` never produces). -/
def avg_price (s : String) (trades : List Trade) : Option ℚ :=
  if (tradesFor s trades).length = 0 then none
  else some (((tradesFor s trades).map (·.price)).sum / (tradesFor s trades).length)

/-- One row of the aggregation result set. -/
structure AggRow where
  symbol : String
  net_qty : ℚ
  avg_price : Option ℚ
deriving DecidableEq, Repr

/-- The aggregation query of `GET /api/portfolio` (lines 102–109): one row
per distinct symbol, filtered by
`HAVING SUM(CASE WHEN type='BUY' THEN quantity ELSE -quantity END) <> 0`.
Row order is left as first appearance in the ledger; the contract leaves
ordering unspecified. -/
def portfolioAgg (trades : List Trade) : List AggRow :=
  ((trades.map (·.symbol)).dedup).filterMap fun s =>
    if net_qty s trades ≠ 0 then some ⟨s, net_qty s trades, avg_price s trades⟩
    else none

/-!
The combiner loop and total (lines 114–132).  Prices here follow the
resolver contract `decimal | absent` (§4.2/§6 of the design: the quote
lookup yields a number or `null`); the loop body and the `reduce` are
embedded literally.
-/

/-- `Number(x.toFixed(4))`: rounding to 4 decimal places (ties away from
the platform's binary representation are idealised as round-half-up, one of
the two roundings the design admits). -/
def round4 (q : ℚ) : ℚ := (round (q * 10000) : ℤ) / 10000

/-- One element pushed onto `portfolio` by the loop body (lines 122–128). -/
structure PortfolioRow where
  symbol : String
  netQty : ℚ
  avgPrice : Option ℚ
  currentPrice : Option ℚ
  marketValue : Option ℚ
deriving DecidableEq, Repr

/-- Loop body for one aggregation row: `marketValue` is
`Number((netQty * currentPrice).toFixed(4))` when `currentPrice !== null`,
and `null` otherwise. -/
def buildRow (r : AggRow) (currentPrice : Option ℚ) : PortfolioRow :=
  { symbol := r.symbol
    netQty := r.net_qty
    avgPrice := r.avg_price
    currentPrice := currentPrice
    marketValue :=
      match currentPrice with
      | some p => some (round4 (r.net_qty * p))
      | none => none }

/-- The whole `for (const r of rows)` loop, with the current price of each
symbol supplied by a lookup (the resolver of §4.2). -/
def buildPortfolio (rows : List AggRow) (priceOf : String → Option ℚ) :
    List PortfolioRow :=
  rows.map fun r => buildRow r (priceOf r.symbol)

/-- JS `p.marketValue || 0`: `null` and `0` are falsy and give `0`. -/
def jsOrZero : Option ℚ → ℚ
  | none => 0
  | some x => if x = 0 then 0 else x

/-- `portfolio.reduce((acc, p) => acc + (p.marketValue || 0), 0)`
(lines 131–132). -/
def totalValue (portfolio : List PortfolioRow) : ℚ :=
  portfolio.foldl (fun acc p => acc + jsOrZero p.marketValue) 0

/-!
Specification-side quantities: the per-type sums and counts the design
document states the aggregation in terms of.  They are written as direct
recursions over the ledger so that the theorems relate the SQL embedding
above to an independently phrased expression.
-/

/-- Sum of the quantities of the BUY records of symbol `s`. -/
def buyQtySum (s : String) : List Trade → ℚ
  | [] => 0
  | t :: ts =>
    (if t.symbol = s ∧ t.type = TradeType.BUY then t.quantity else 0) + buyQtySum s ts

/-- Sum of the quantities of the SELL records of symbol `s`. -/
def sellQtySum (s : String) : List Trade → ℚ
  | [] => 0
  | t :: ts =>
    (if t.symbol = s ∧ t.type = TradeType.SELL then t.quantity else 0) + sellQtySum s ts

/-- Sum of the prices of the BUY records of symbol `s`. -/
def buyPriceSum (s : String) : List Trade → ℚ
  | [] => 0
  | t :: ts =>
    (if t.symbol = s ∧ t.type = TradeType.BUY then t.price else 0) + buyPriceSum s ts

/-- Sum of the prices of the SELL records of symbol `s`. -/
def sellPriceSum (s : String) : List Trade → ℚ
  | [] => 0
  | t :: ts =>
    (if t.symbol = s ∧ t.type = TradeType.SELL then t.price else 0) + sellPriceSum s ts

/-- Number of BUY records of symbol `s`. -/
def buyCount (s : String) : List Trade → ℕ
  | [] => 0
  | t :: ts =>
    (if t.symbol = s ∧ t.type = TradeType.BUY then 1 else 0) + buyCount s ts

/-- Number of SELL records of symbol `s`. -/
def sellCount (s : String) : List Trade → ℕ
  | [] => 0
  | t :: ts =>
    (if t.symbol = s ∧ t.type = TradeType.SELL then 1 else 0) + sellCount s ts

/-- A small concrete ledger used to instantiate the theorems: a fully
closed AAPL position and an open TSLA position. -/
def demoTrades : List Trade :=
  [⟨"AAPL", 10, 5, .BUY, 1⟩, ⟨"AAPL", 10, 6, .SELL, 2⟩,
   ⟨"TSLA", 5, 10, .BUY, 3⟩, ⟨"TSLA", 2, 12, .SELL, 4⟩]

/-- A concrete price lookup used to instantiate the combiner theorems. -/
def demoPriceOf : String → Option ℚ :=
  fun s => if s = "AAPL" then some 50 else none

/-! Helper lemmas about the cache and the resolver's control paths. -/

theorem cacheGet_cacheSet_self (c : Cache) (k : String) (e : CacheEntry) :
    cacheGet (cacheSet c k e) k = some e := by
  induction c with
  | nil => simp [cacheGet, cacheSet]
  | cons kv rest ih =>
    obtain ⟨k', v⟩ := kv
    by_cases h : k' = k
    · simp [cacheSet, h, cacheGet]
    · simp [cacheSet, h, cacheGet, ih]

theorem fetchStalePath_cache (a : Option String) (o : FetchOutcome) (c : Cache)
    (k : String) (n : ℤ) :
    (fetchStalePath a o c k n).cache =
      cacheSet c k ⟨(fetchStalePath a o c k n).ret, n⟩ := by
  unfold fetchStalePath
  by_cases h : jsTruthyKey a = false
  · simp [h]
  · cases o <;> simp [h]

theorem fetchStalePath_fetched (a : Option String) (o : FetchOutcome) (c : Cache)
    (k : String) (n : ℤ) :
    (fetchStalePath a o c k n).fetched = jsTruthyKey a := by
  unfold fetchStalePath
  by_cases h : jsTruthyKey a = false
  · simp [h]
  · have h' : jsTruthyKey a = true := by
      cases hj : jsTruthyKey a
      · exact absurd hj h
      · rfl
    cases o <;> simp [h']

theorem fetchCurrentPrice_fresh (a : Option String) (o : FetchOutcome) (c : Cache)
    (s : String) (n : ℤ) (e : CacheEntry) (hget : cacheGet c (jsToUpper s) = some e)
    (hfresh : n - e.ts < CACHE_TTL_MS) :
    fetchCurrentPrice a o c s n = ⟨e.price, c, false⟩ := by
  simp [fetchCurrentPrice, hget, hfresh]

theorem fetchCurrentPrice_stale (a : Option String) (o : FetchOutcome) (c : Cache)
    (s : String) (n : ℤ)
    (hstale : ∀ e, cacheGet c (jsToUpper s) = some e → CACHE_TTL_MS ≤ n - e.ts) :
    fetchCurrentPrice a o c s n = fetchStalePath a o c (jsToUpper s) n := by
  unfold fetchCurrentPrice
  cases hget : cacheGet c (jsToUpper s) with
  | none => rfl
  | some e => simp [not_lt.mpr (hstale e hget)]

theorem fetchCurrentPrice_path (a : Option String) (o : FetchOutcome) (c : Cache)
    (s : String) (n : ℤ) :
    (∃ e, cacheGet c (jsToUpper s) = some e ∧ n - e.ts < CACHE_TTL_MS ∧
      fetchCurrentPrice a o c s n = ⟨e.price, c, false⟩) ∨
    fetchCurrentPrice a o c s n = fetchStalePath a o c (jsToUpper s) n := by
  unfold fetchCurrentPrice
  cases hget : cacheGet c (jsToUpper s) with
  | none => right; rfl
  | some e =>
    by_cases h : n - e.ts < CACHE_TTL_MS
    · exact Or.inl ⟨e, rfl, h, by simp [h]⟩
    · right; simp [h]

/-- C10: after any `fetchCurrentPrice(symbol)` call — fresh hit, missing
credential, successful fetch, unparseable payload or fetch error — the
cache holds an entry under the uppercased symbol and the returned value is
exactly that entry's stored price. -/
theorem resolvePrice_cache_postcondition (apiKey : Option String)
    (outcome : FetchOutcome) (cache : Cache) (symbol : String) (now : ℤ) :
    ∃ e : CacheEntry,
      cacheGet (fetchCurrentPrice apiKey outcome cache symbol now).cache
        (jsToUpper symbol) = some e ∧
      (fetchCurrentPrice apiKey outcome cache symbol now).ret = e.price := by
  rcases fetchCurrentPrice_path apiKey outcome cache symbol now with
    ⟨e, hget, _, heq⟩ | heq
  · exact ⟨e, by rw [heq]; exact hget, by rw [heq]⟩
  · refine ⟨⟨(fetchCurrentPrice apiKey outcome cache symbol now).ret, now⟩, ?_, rfl⟩
    rw [heq, fetchStalePath_cache, ← heq]
    exact cacheGet_cacheSet_self _ _ _

/-- C9: `fetchCurrentPrice` normalises the symbol to upper case before
every cache read and write, so any two spellings with the same uppercasing
read and write the same entry and produce identical results — in
particular `"aapl"` and `"AAPL"` share one cache entry. -/
theorem resolvePrice_case_insensitive (apiKey : Option String)
    (outcome : FetchOutcome) (cache : Cache) (s₁ s₂ : String) (now : ℤ)
    (h : jsToUpper s₁ = jsToUpper s₂) :
    fetchCurrentPrice apiKey outcome cache s₁ now =
      fetchCurrentPrice apiKey outcome cache s₂ now := by
  unfold fetchCurrentPrice
  rw [h]

/-- C9 witness: the two case variants of AAPL, evaluated on a concrete
cache, at a concrete time. -/
theorem resolvePrice_case_insensitive_instance :
    fetchCurrentPrice (some "k") .err [("AAPL", ⟨none, 0⟩)] "aapl" 100 =
      fetchCurrentPrice (some "k") .err [("AAPL", ⟨none, 0⟩)] "AAPL" 100 :=
  resolvePrice_case_insensitive (some "k") .err [("AAPL", ⟨none, 0⟩)] "aapl" "AAPL" 100
    (by decide)

/-- C1: (i) a cache entry for the uppercased symbol younger than
`CACHE_TTL_MS` is returned as-is with no external fetch and no cache write;
(ii) two sequential calls for one symbol inside one TTL window issue at
most one external fetch between them; (iii) a call that finds its entry
expired issues exactly one new fetch (when a credential is configured —
without one the resolver skips the call by design, per the spec's
missing-credential short-circuit). -/
theorem resolvePrice_ttl_freshness_bounds_fetches
    (apiKey : Option String) (o₁ o₂ : FetchOutcome) (cache : Cache)
    (symbol : String) (e : CacheEntry) (now t₀ t₁ : ℤ) :
    (cacheGet cache (jsToUpper symbol) = some e → now - e.ts < CACHE_TTL_MS →
      fetchCurrentPrice apiKey o₁ cache symbol now = ⟨e.price, cache, false⟩) ∧
    (t₀ ≤ t₁ → t₁ - t₀ < CACHE_TTL_MS →
      (if (fetchCurrentPrice apiKey o₁ cache symbol t₀).fetched = true then 1 else 0) +
        (if (fetchCurrentPrice apiKey o₂
              (fetchCurrentPrice apiKey o₁ cache symbol t₀).cache symbol t₁).fetched = true
          then 1 else 0) ≤ 1) ∧
    (cacheGet cache (jsToUpper symbol) = some e → CACHE_TTL_MS ≤ now - e.ts →
      jsTruthyKey apiKey = true →
      (fetchCurrentPrice apiKey o₁ cache symbol now).fetched = true) := by
  refine ⟨fun hget hfresh => fetchCurrentPrice_fresh _ _ _ _ _ _ hget hfresh, ?_, ?_⟩
  · intro _ hwin
    by_cases hf : (fetchCurrentPrice apiKey o₁ cache symbol t₀).fetched = true
    · rcases fetchCurrentPrice_path apiKey o₁ cache symbol t₀ with ⟨e', _, _, heq⟩ | heq
      · rw [heq] at hf
        simp at hf
      · have hc : (fetchCurrentPrice apiKey o₁ cache symbol t₀).cache =
            cacheSet cache (jsToUpper symbol)
              ⟨(fetchCurrentPrice apiKey o₁ cache symbol t₀).ret, t₀⟩ := by
          rw [heq, fetchStalePath_cache, ← heq]
        have hget2 : cacheGet (fetchCurrentPrice apiKey o₁ cache symbol t₀).cache
            (jsToUpper symbol) =
            some ⟨(fetchCurrentPrice apiKey o₁ cache symbol t₀).ret, t₀⟩ := by
          rw [hc]
          exact cacheGet_cacheSet_self _ _ _
        have h2 := fetchCurrentPrice_fresh apiKey o₂ _ symbol t₁ _ hget2 hwin
        rw [h2]
        simp [hf]
    · have hf' : (fetchCurrentPrice apiKey o₁ cache symbol t₀).fetched = false :=
        Bool.eq_false_iff.mpr hf
      simp only [hf', Bool.false_eq_true, if_false]
      split <;> omega
  · intro hget hstale hkey
    have hst : ∀ e', cacheGet cache (jsToUpper symbol) = some e' →
        CACHE_TTL_MS ≤ now - e'.ts := by
      intro e' hg
      rw [hget] at hg
      injection hg with h
      subst h
      exact hstale
    rw [fetchCurrentPrice_stale apiKey o₁ cache symbol now hst,
      fetchStalePath_fetched]
    exact hkey

/-- C1 witness: the freshness rule on a concrete fresh entry, the two-call
bound starting from an empty cache, and the expiry rule at exactly TTL. -/
theorem resolvePrice_ttl_freshness_bounds_fetches_instance :
    fetchCurrentPrice (some "k") .err [("AAPL", ⟨none, 0⟩)] "aapl" 100 =
      ⟨none, [("AAPL", ⟨none, 0⟩)], false⟩ ∧
    (if (fetchCurrentPrice (some "k") .err [] "aapl" 0).fetched = true then 1 else 0) +
      (if (fetchCurrentPrice (some "k") .err
            (fetchCurrentPrice (some "k") .err [] "aapl" 0).cache "aapl" 59999).fetched = true
        then 1 else 0) ≤ 1 ∧
    (fetchCurrentPrice (some "k") .err [("AAPL", ⟨none, 0⟩)] "aapl" 60000).fetched = true := by
  refine ⟨?_, ?_, ?_⟩
  · exact (resolvePrice_ttl_freshness_bounds_fetches (some "k") .err .err
      [("AAPL", ⟨none, 0⟩)] "aapl" ⟨none, 0⟩ 100 0 0).1 (by decide) (by decide)
  · exact (resolvePrice_ttl_freshness_bounds_fetches (some "k") .err .err
      [] "aapl" ⟨none, 0⟩ 0 0 59999).2.1 (by decide) (by decide)
  · exact (resolvePrice_ttl_freshness_bounds_fetches (some "k") .err .err
      [("AAPL", ⟨none, 0⟩)] "aapl" ⟨none, 0⟩ 60000 0 0).2.2 rfl (by decide) (by decide)

/-- C5: with no fresh cache entry, a missing or empty credential skips the
external call entirely and stores-and-returns absent with
`fetchedAt = now`; a throwing fetch likewise stores-and-returns absent
(with the one failed attempt counted by the `fetched` flag).  The embedding
is a total function: the `catch` swallows the error, so no exception
reaches the caller on any input. -/
theorem resolvePrice_missing_key_or_error_stores_absent
    (apiKey : Option String) (outcome : FetchOutcome) (cache : Cache)
    (symbol : String) (now : ℤ)
    (noFresh : ∀ e, cacheGet cache (jsToUpper symbol) = some e →
      CACHE_TTL_MS ≤ now - e.ts) :
    (jsTruthyKey apiKey = false →
      fetchCurrentPrice apiKey outcome cache symbol now =
        ⟨none, cacheSet cache (jsToUpper symbol) ⟨none, now⟩, false⟩) ∧
    (outcome = .err →
      fetchCurrentPrice apiKey outcome cache symbol now =
        ⟨none, cacheSet cache (jsToUpper symbol) ⟨none, now⟩, jsTruthyKey apiKey⟩) := by
  have hs := fetchCurrentPrice_stale apiKey outcome cache symbol now noFresh
  constructor
  · intro hkey
    rw [hs]
    unfold fetchStalePath
    simp [hkey]
  · intro ho
    subst ho
    rw [hs]
    unfold fetchStalePath
    by_cases hkey : jsTruthyKey apiKey = false
    · simp [hkey]
    · have h' : jsTruthyKey apiKey = true := by
        cases hj : jsTruthyKey apiKey
        · exact absurd hj hkey
        · rfl
      simp [h']

/-- C5 witness: a missing credential on an empty cache, and a fetch error
with a configured credential, both at a concrete symbol and time. -/
theorem resolvePrice_missing_key_or_error_stores_absent_instance :
    fetchCurrentPrice none .err [] "MSFT" 7 =
      ⟨none, cacheSet [] (jsToUpper "MSFT") ⟨none, 7⟩, false⟩ ∧
    fetchCurrentPrice (some "k") .err [] "MSFT" 7 =
      ⟨none, cacheSet [] (jsToUpper "MSFT") ⟨none, 7⟩, jsTruthyKey (some "k")⟩ := by
  constructor
  · exact (resolvePrice_missing_key_or_error_stores_absent none .err [] "MSFT" 7
      (fun _ he => by simp [cacheGet] at he)).1 (by decide)
  · exact (resolvePrice_missing_key_or_error_stores_absent (some "k") .err [] "MSFT" 7
      (fun _ he => by simp [cacheGet] at he)).2 rfl

/-- C6 counterexample: a successful fetch whose price field is the
non-numeric (hence not finitely parseable) string "abc" makes
`fetchCurrentPrice` store and return `NaN` — a present value, not absent —
because the code applies `parseFloat` with no finiteness check. -/
theorem nonnumeric_price_not_stored_absent :
    (fetchCurrentPrice (some "k") (.ok (some "abc")) [] "AAPL" 0).ret =
      some JsNum.nan ∧
    cacheGet (fetchCurrentPrice (some "k") (.ok (some "abc")) [] "AAPL" 0).cache
      "AAPL" = some ⟨some JsNum.nan, 0⟩ ∧
    some JsNum.nan ≠ (none : Option JsNum) := by
  refine ⟨by decide, by decide, by decide⟩

/-- C6 amended: on a successful fetch with no fresh cache entry and a
configured credential, a missing or empty price field stores and returns
absent with `fetchedAt = now`; a non-empty price string stores and returns
`parseFloat` of it — the parsed number when the string has a numeric
prefix, and `NaN` (not absent) otherwise. -/
theorem fetch_success_price_parsing (apiKey : Option String) (cache : Cache)
    (symbol : String) (now : ℤ) (ps : Option String)
    (noFresh : ∀ e, cacheGet cache (jsToUpper symbol) = some e →
      CACHE_TTL_MS ≤ now - e.ts)
    (hkey : jsTruthyKey apiKey = true) :
    (ps = none ∨ ps = some "" →
      fetchCurrentPrice apiKey (.ok ps) cache symbol now =
        ⟨none, cacheSet cache (jsToUpper symbol) ⟨none, now⟩, true⟩) ∧
    (∀ s, ps = some s → s ≠ "" →
      fetchCurrentPrice apiKey (.ok ps) cache symbol now =
        ⟨some (parseFloat s),
         cacheSet cache (jsToUpper symbol) ⟨some (parseFloat s), now⟩, true⟩) := by
  have hs := fetchCurrentPrice_stale apiKey (.ok ps) cache symbol now noFresh
  constructor
  · rintro (rfl | rfl) <;>
      (rw [hs]; unfold fetchStalePath; simp [hkey, jsPriceOf])
  · rintro s rfl hne
    rw [hs]
    unfold fetchStalePath
    simp [hkey, jsPriceOf, hne]

/-- C6 amended witness: the empty-string field stores absent; the field
"150" stores `parseFloat "150"`. -/
theorem fetch_success_price_parsing_instance :
    fetchCurrentPrice (some "k") (.ok (some "")) [] "TSLA" 3 =
      ⟨none, cacheSet [] (jsToUpper "TSLA") ⟨none, 3⟩, true⟩ ∧
    fetchCurrentPrice (some "k") (.ok (some "150")) [] "TSLA" 3 =
      ⟨some (parseFloat "150"),
       cacheSet [] (jsToUpper "TSLA") ⟨some (parseFloat "150"), 3⟩, true⟩ := by
  constructor
  · exact (fetch_success_price_parsing (some "k") [] "TSLA" 3 (some "")
      (fun _ he => by simp [cacheGet] at he) (by decide)).1 (Or.inr rfl)
  · exact (fetch_success_price_parsing (some "k") [] "TSLA" 3 (some "150")
      (fun _ he => by simp [cacheGet] at he) (by decide)).2 "150" rfl (by decide)

/-! Helper lemmas about the aggregation. -/

theorem tradesFor_cons (s : String) (t : Trade) (ts : List Trade) :
    tradesFor s (t :: ts) =
      if t.symbol = s then t :: tradesFor s ts else tradesFor s ts := by
  simp only [tradesFor, List.filter_cons]
  split <;> simp_all

theorem net_qty_cons (s : String) (t : Trade) (ts : List Trade) :
    net_qty s (t :: ts) =
      (if t.symbol = s then signedQty t else 0) + net_qty s ts := by
  unfold net_qty
  rw [tradesFor_cons]
  split <;> simp

theorem net_qty_eq_split (s : String) (trades : List Trade) :
    net_qty s trades = buyQtySum s trades - sellQtySum s trades := by
  induction trades with
  | nil => simp [net_qty, tradesFor, buyQtySum, sellQtySum]
  | cons t ts ih =>
    rw [net_qty_cons, ih]
    by_cases hs : t.symbol = s
    · cases htype : t.type <;>
        simp [hs, htype, signedQty, buyQtySum, sellQtySum] <;> ring
    · simp [hs, buyQtySum, sellQtySum]

theorem price_sum_split (s : String) (trades : List Trade) :
    ((tradesFor s trades).map (·.price)).sum =
      buyPriceSum s trades + sellPriceSum s trades := by
  induction trades with
  | nil => simp [tradesFor, buyPriceSum, sellPriceSum]
  | cons t ts ih =>
    rw [tradesFor_cons]
    by_cases hs : t.symbol = s
    · cases htype : t.type <;>
        simp [hs, htype, buyPriceSum, sellPriceSum, ih] <;> ring
    · simp [hs, buyPriceSum, sellPriceSum, ih]

theorem count_split (s : String) (trades : List Trade) :
    (tradesFor s trades).length = buyCount s trades + sellCount s trades := by
  induction trades with
  | nil => simp [tradesFor, buyCount, sellCount]
  | cons t ts ih =>
    rw [tradesFor_cons]
    by_cases hs : t.symbol = s
    · cases htype : t.type <;>
        simp [hs, htype, buyCount, sellCount, ih] <;> omega
    · simp [hs, buyCount, sellCount, ih]

theorem net_qty_ne_zero_nonempty {s : String} {trades : List Trade}
    (h : net_qty s trades ≠ 0) : (tradesFor s trades).length ≠ 0 := by
  intro hlen
  apply h
  have he : tradesFor s trades = [] := List.length_eq_zero.mp hlen
  simp [net_qty, he]

theorem portfolioAgg_mem_elim {trades : List Trade} {row : AggRow}
    (h : row ∈ portfolioAgg trades) :
    net_qty row.symbol trades ≠ 0 ∧
    row.net_qty = net_qty row.symbol trades ∧
    row.avg_price = avg_price row.symbol trades := by
  unfold portfolioAgg at h
  rw [List.mem_filterMap] at h
  obtain ⟨s, _, hf⟩ := h
  by_cases hnz : net_qty s trades ≠ 0
  · rw [if_pos hnz] at hf
    injection hf with hf
    subst hf
    exact ⟨hnz, rfl, rfl⟩
  · rw [if_neg hnz] at hf
    exact absurd hf (by simp)

/-- C2: the net quantity the aggregation reports for a symbol is the sum of
its BUY quantities minus the sum of its SELL quantities, and the grouped
sum is invariant under any reordering of the ledger. -/
theorem net_qty_eq_buys_minus_sells (trades trades' : List Trade) (row : AggRow)
    (hmem : row ∈ portfolioAgg trades) (hperm : trades.Perm trades') :
    row.net_qty = buyQtySum row.symbol trades - sellQtySum row.symbol trades ∧
    net_qty row.symbol trades = net_qty row.symbol trades' := by
  obtain ⟨_, hq, _⟩ := portfolioAgg_mem_elim hmem
  refine ⟨by rw [hq, net_qty_eq_split], ?_⟩
  unfold net_qty tradesFor
  exact List.Perm.sum_eq (List.Perm.map _ (List.Perm.filter _ hperm))

/-- C2 witness: the TSLA row of the demo ledger (net 5 − 2 = 3), with the
reversed ledger as the reordering. -/
theorem net_qty_eq_buys_minus_sells_instance :
    (⟨"TSLA", 3, some 11⟩ : AggRow).net_qty =
      buyQtySum "TSLA" demoTrades - sellQtySum "TSLA" demoTrades ∧
    net_qty "TSLA" demoTrades = net_qty "TSLA" demoTrades.reverse :=
  net_qty_eq_buys_minus_sells demoTrades demoTrades.reverse ⟨"TSLA", 3, some 11⟩
    (by with_unfolding_all decide) (demoTrades.reverse_perm).symm

/-- C3: a symbol whose BUY-minus-SELL quantity is exactly zero never
appears in the aggregation output, and every emitted row has a non-zero
net quantity (the `HAVING` clause). -/
theorem zero_net_qty_absent_from_output (trades : List Trade) (s : String)
    (h : buyQtySum s trades - sellQtySum s trades = 0) :
    s ∉ (portfolioAgg trades).map (·.symbol) ∧
    ∀ row ∈ portfolioAgg trades, row.net_qty ≠ 0 := by
  constructor
  · intro hmem
    rw [List.mem_map] at hmem
    obtain ⟨row, hrow, hsym⟩ := hmem
    obtain ⟨hnz, _, _⟩ := portfolioAgg_mem_elim hrow
    rw [hsym] at hnz
    exact hnz (by rw [net_qty_eq_split, h])
  · intro row hrow
    obtain ⟨hnz, hq, _⟩ := portfolioAgg_mem_elim hrow
    rw [hq]
    exact hnz

/-- C3 witness: AAPL (BUY 10 then SELL 10) is absent from the demo
aggregation, while the emitted TSLA row has non-zero net quantity. -/
theorem zero_net_qty_absent_from_output_instance :
    "AAPL" ∉ (portfolioAgg demoTrades).map (·.symbol) ∧
    (⟨"TSLA", 3, some 11⟩ : AggRow).net_qty ≠ 0 := by
  have h := zero_net_qty_absent_from_output demoTrades "AAPL"
    (by with_unfolding_all decide)
  exact ⟨h.1, h.2 ⟨"TSLA", 3, some 11⟩ (by with_unfolding_all decide)⟩

/-- C4: the average price the aggregation reports is the arithmetic mean of
the price field over all of the symbol's records, BUY and SELL counted
alike — (sum of BUY prices + sum of SELL prices) over (number of BUYs +
number of SELLs). -/
theorem avg_price_is_mean_over_all_trades (trades : List Trade) (row : AggRow)
    (hmem : row ∈ portfolioAgg trades) :
    row.avg_price = some
      ((buyPriceSum row.symbol trades + sellPriceSum row.symbol trades) /
        ((buyCount row.symbol trades + sellCount row.symbol trades : ℕ) : ℚ)) := by
  obtain ⟨hnz, _, ha⟩ := portfolioAgg_mem_elim hmem
  have hlen := net_qty_ne_zero_nonempty hnz
  rw [ha]
  unfold avg_price
  rw [if_neg hlen, price_sum_split, count_split]

/-- C4 witness: the TSLA row of the demo ledger, whose mean price is
(10 + 12) / 2 = 11 over one BUY and one SELL. -/
theorem avg_price_is_mean_over_all_trades_instance :
    (⟨"TSLA", 3, some 11⟩ : AggRow).avg_price = some
      ((buyPriceSum "TSLA" demoTrades + sellPriceSum "TSLA" demoTrades) /
        ((buyCount "TSLA" demoTrades + sellCount "TSLA" demoTrades : ℕ) : ℚ)) :=
  avg_price_is_mean_over_all_trades demoTrades ⟨"TSLA", 3, some 11⟩
    (by with_unfolding_all decide)

/-! Helper lemmas about the combiner. -/

theorem foldl_add_eq_sum (f : PortfolioRow → ℚ) (l : List PortfolioRow) (acc : ℚ) :
    l.foldl (fun a p => a + f p) acc = acc + (l.map f).sum := by
  induction l generalizing acc with
  | nil => simp
  | cons x xs ih => simp [ih, add_assoc]

theorem jsOrZero_eq_getD (mv : Option ℚ) : jsOrZero mv = mv.getD 0 := by
  cases mv with
  | none => rfl
  | some x => by_cases h : x = 0 <;> simp [jsOrZero, h]

/-- C7: in the built portfolio, a row's `marketValue` is absent exactly
when its `currentPrice` is absent (an unpriced row is never coerced to
zero), and a priced row's `marketValue` is netQuantity × currentPrice
rounded to 4 decimal places. -/
theorem marketValue_absent_iff_price_absent (rows : List AggRow)
    (priceOf : String → Option ℚ) (row : PortfolioRow)
    (hmem : row ∈ buildPortfolio rows priceOf) :
    (row.marketValue = none ↔ row.currentPrice = none) ∧
    ∀ p : ℚ, row.currentPrice = some p →
      row.marketValue = some (round4 (row.netQty * p)) := by
  unfold buildPortfolio at hmem
  rw [List.mem_map] at hmem
  obtain ⟨r, _, hr⟩ := hmem
  subst hr
  cases hp : priceOf r.symbol with
  | none => simp [buildRow, hp]
  | some p₀ =>
    constructor
    · simp [buildRow, hp]
    · intro p hcp
      simp only [buildRow, hp] at hcp ⊢
      injection hcp with hcp
      subst hcp
      rfl

/-- C7 witness: a priced AAPL row (price 50, market value 150) from the
demo lookup. -/
theorem marketValue_absent_iff_price_absent_instance :
    ((buildRow ⟨"AAPL", 3, some 11⟩ (demoPriceOf "AAPL")).marketValue = none ↔
      (buildRow ⟨"AAPL", 3, some 11⟩ (demoPriceOf "AAPL")).currentPrice = none) ∧
    (buildRow ⟨"AAPL", 3, some 11⟩ (demoPriceOf "AAPL")).marketValue =
      some (round4 ((buildRow ⟨"AAPL", 3, some 11⟩ (demoPriceOf "AAPL")).netQty * 50)) := by
  have h := marketValue_absent_iff_price_absent [⟨"AAPL", 3, some 11⟩] demoPriceOf
    (buildRow ⟨"AAPL", 3, some 11⟩ (demoPriceOf "AAPL"))
    (by with_unfolding_all decide)
  exact ⟨h.1, h.2 50 (by with_unfolding_all decide)⟩

/-- C8: the reduce computing `totalValue` sums every row's `marketValue`
with absent contributing exactly 0, while the per-row `marketValue` of an
unpriced row stays absent. -/
theorem totalValue_sums_marketValues_absent_as_zero (rows : List AggRow)
    (priceOf : String → Option ℚ) :
    totalValue (buildPortfolio rows priceOf) =
      ((buildPortfolio rows priceOf).map (fun p => p.marketValue.getD 0)).sum ∧
    ∀ row ∈ buildPortfolio rows priceOf,
      row.currentPrice = none → row.marketValue = none := by
  constructor
  · unfold totalValue
    rw [foldl_add_eq_sum (fun p => jsOrZero p.marketValue)]
    simp [jsOrZero_eq_getD]
  · intro row hmem hcp
    unfold buildPortfolio at hmem
    rw [List.mem_map] at hmem
    obtain ⟨r, _, hr⟩ := hmem
    subst hr
    simp only [buildRow] at hcp ⊢
    rw [hcp]

/-- C8 witness: two demo rows — priced AAPL contributing 150, unpriced
MSFT contributing 0 while staying absent per-row. -/
theorem totalValue_sums_marketValues_absent_as_zero_instance :
    totalValue (buildPortfolio [⟨"AAPL", 3, some 11⟩, ⟨"MSFT", 2, some 7⟩] demoPriceOf) =
      ((buildPortfolio [⟨"AAPL", 3, some 11⟩, ⟨"MSFT", 2, some 7⟩] demoPriceOf).map
        (fun p => p.marketValue.getD 0)).sum ∧
    (buildRow ⟨"MSFT", 2, some 7⟩ (demoPriceOf "MSFT")).marketValue = none := by
  have h := totalValue_sums_marketValues_absent_as_zero
    [⟨"AAPL", 3, some 11⟩, ⟨"MSFT", 2, some 7⟩] demoPriceOf
  exact ⟨h.1, h.2 (buildRow ⟨"MSFT", 2, some 7⟩ (demoPriceOf "MSFT"))
    (by with_unfolding_all decide) (by with_unfolding_all decide)⟩
